import Mathlib

/-!
Verification of the CalVer version tooling (`scripts/calc_version.py` and
`src/hatch_calvar_sample/cli.py`) against its natural-language specification.

Strings are modelled as `List Char`; Python integers as `Nat` (all numbers
involved are parsed from digit strings, hence non-negative).  Whitespace is
modelled as the ASCII whitespace characters recognised by Python's
`str.strip`.  Digits are the ASCII digits matched by the pattern `\d` on the
inputs of interest.
-/

/-- A parsed CalVer value `(year, month, day, micro)`. -/
abbrev Calver := Nat × Nat × Nat × Nat

/-- ASCII whitespace, as stripped by Python's `str.strip()`. -/
def isSpaceChar (c : Char) : Bool :=
  decide (c = ' ') || decide (c = '\t') || decide (c = '\n') ||
    decide (c = '\r') || decide (c = '\x0b') || decide (c = '\x0c')

/-- ASCII decimal digit, as matched by `\d` in the CalVer pattern. -/
def isDigitChar (c : Char) : Bool :=
  decide (48 ≤ c.toNat) && decide (c.toNat ≤ 57)

/-- Model of Python's `str.strip()`: remove leading and trailing whitespace. -/
def pystrip (s : List Char) : List Char :=
  (s.dropWhile isSpaceChar).rdropWhile isSpaceChar

/-- The decimal digit character for a digit value; mirrors `Nat.digitChar`
restricted to base 10. -/
def digitChar (d : Nat) : Char :=
  match d with
  | 0 => '0' | 1 => '1' | 2 => '2' | 3 => '3' | 4 => '4'
  | 5 => '5' | 6 => '6' | 7 => '7' | 8 => '8' | _ => '9'

/-- Numeric value of a digit character (Python `int` on a single digit). -/
def charToDigit (c : Char) : Nat := c.toNat - 48

/-- Value of a big-endian digit string, as computed by Python's `int()`. -/
def digitsToNat (ds : List Char) : Nat :=
  ds.foldl (fun a c => 10 * a + charToDigit c) 0

/-- Fuel-based decimal rendering loop, mirroring the structure of the
runtime's decimal conversion. -/
def toDecimalAux : Nat → Nat → List Char → List Char
  | 0, _, acc => acc
  | fuel + 1, n, acc =>
    if n < 10 then digitChar (n % 10) :: acc
    else toDecimalAux fuel (n / 10) (digitChar (n % 10) :: acc)

/-- Decimal rendering of a natural number, as Python's `str`/`{:d}`. -/
def natStr (n : Nat) : List Char := toDecimalAux (n + 1) n []

/-- Left-pad a digit string with `'0'` to width `w`; models Python's
`{:0wd}` format specifier (no truncation when already wider). -/
def padZero (w : Nat) (ds : List Char) : List Char :=
  List.replicate (w - ds.length) '0' ++ ds

/-- Python `f"{n:04d}"`. -/
def fmt4 (n : Nat) : List Char := padZero 4 (natStr n)

/-- Python `f"{n:02d}"`. -/
def fmt2 (n : Nat) : List Char := padZero 2 (natStr n)

/-- The `f"{year:04d}.{month:02d}.{day:02d}"` date prefix built by
`calculate_next_version`. -/
def datePart (y m d : Nat) : List Char :=
  fmt4 y ++ '.' :: fmt2 m ++ '.' :: fmt2 d

/-- Canonical formatted form `{year:04d}.{month:02d}.{day:02d}.{micro}` of a
CalVer value (the spec's `format`, no leading `v`). -/
def pyformat (v : Calver) : List Char :=
  datePart v.1 v.2.1 v.2.2.1 ++ '.' :: natStr v.2.2.2

/-- Structural part of `CALVER_PATTERN`
(`^(?P<year>\d{4})\.(?P<month>\d{2})\.(?P<day>\d{2})\.(?P<micro>\d+)$`,
after the optional `v` has been handled), together with the `int()`
conversions of the four groups. -/
def matchCalver : List Char → Option Calver
  | y1 :: y2 :: y3 :: y4 :: c1 :: m1 :: m2 :: c2 :: d1 :: d2 :: c3 :: rest =>
    if isDigitChar y1 && isDigitChar y2 && isDigitChar y3 && isDigitChar y4 &&
        decide (c1 = '.') && isDigitChar m1 && isDigitChar m2 &&
        decide (c2 = '.') && isDigitChar d1 && isDigitChar d2 &&
        decide (c3 = '.') && !rest.isEmpty && rest.all isDigitChar then
      some (digitsToNat [y1, y2, y3, y4], digitsToNat [m1, m2],
        digitsToNat [d1, d2], digitsToNat rest)
    else none
  | _ => none

/-- Consume the optional leading `v` of `CALVER_PATTERN` (`^v?...`); by
regex backtracking this is equivalent to trying the rest of the pattern on
the tail exactly when the string starts with `v`. -/
def strip_v (s : List Char) : List Char :=
  match s with
  | c :: rest => if c = 'v' then rest else s
  | [] => s

/-- Semantic range validation performed by `parse_calver_tag` after the
regex match: month in `[1,12]`, day in `[1,31]`, micro at least `1`. -/
def validateRanges (v : Calver) : Option Calver :=
  if ¬(1 ≤ v.2.1 ∧ v.2.1 ≤ 12) then none
  else if ¬(1 ≤ v.2.2.1 ∧ v.2.2.1 ≤ 31) then none
  else if v.2.2.2 < 1 then none
  else some v

/-- Model of `parse_calver_tag`: strip whitespace, match the anchored
pattern with its optional `v`, convert the groups with `int()` (which cannot
fail on digit groups, so the source's dead `try/except` is omitted), then
apply the range checks. -/
def parse_calver_tag (tag : List Char) : Option Calver :=
  match matchCalver (strip_v (pystrip tag)) with
  | none => none
  | some v => validateRanges v

/-- Model of `validate_version_format`. -/
def validate_version_format (version : List Char) : Bool :=
  (parse_calver_tag version).isSome

/-- Python's `max` over a non-empty list (`[]` is mapped to `0`, a case the
source never reaches). -/
def listMax : List Nat → Nat
  | [] => 0
  | x :: xs => xs.foldl Nat.max x

/-- Model of `calculate_next_version`, as a pure function of the current
UTC date and the fetched tag list (the spec's Version Calculator contract;
`get_current_date`/`get_git_tags` are the external collaborators supplying
the two arguments). -/
def calculate_next_version (current_date : Nat × Nat × Nat)
    (tags : List (List Char)) : List Char :=
  let dp := datePart current_date.1 current_date.2.1 current_date.2.2
  let calver_tags := tags.filterMap parse_calver_tag
  let same_date_tags := calver_tags.filter
    (fun v => decide ((v.1, v.2.1, v.2.2.1) = current_date))
  let next_micro :=
    if same_date_tags.isEmpty then 1
    else listMax (same_date_tags.map (fun v => v.2.2.2)) + 1
  dp ++ '.' :: natStr next_micro

/-- Model of `check_pep440_compliance`.  The external `packaging` library is
a collaborator outside this repository, so its availability and its
`Version()` constructor are parameters: `avail` is whether the import
succeeds, `pep440Accepts version` is whether `Version(version)` succeeds. -/
def check_pep440_compliance (avail : Bool) (pep440Accepts : List Char → Bool)
    (version : List Char) : Bool :=
  if validate_version_format version = false then false
  else if avail then pep440Accepts version
  else validate_version_format version

/-- Python tuple comparison `v1 < v2` on two parsed 4-tuples:
lexicographic strict less-than. -/
def pyTupleLt (a b : Calver) : Bool :=
  decide (a.1 < b.1) || (decide (a.1 = b.1) &&
    (decide (a.2.1 < b.2.1) || (decide (a.2.1 = b.2.1) &&
      (decide (a.2.2.1 < b.2.2.1) || (decide (a.2.2.1 = b.2.2.1) &&
        decide (a.2.2.2 < b.2.2.2))))))

/-- Result string chosen by `version_compare` once both arguments parse:
`"<"` if `v1 < v2`, `">"` if `v1 > v2`, else `"=="`. -/
def compareResult (v1 v2 : Calver) : List Char :=
  if pyTupleLt v1 v2 then ['<']
  else if pyTupleLt v2 v1 then ['>']
  else ['=', '=']

/-- The keys of the `versions` dictionary assembled by `version_check`, as
functions of the three sources: package metadata (if any), the fetched git
tags (contributing iff some tag parses), and the `VERSION` file content (if
the file exists). -/
def version_check_sources (pkg : Option (List Char))
    (git_tags : List (List Char)) (fileContent : Option (List Char)) :
    List (List Char) :=
  (match pkg with
   | some _ => [['p', 'a', 'c', 'k', 'a', 'g', 'e']]
   | none => []) ++
  (if (git_tags.filter (fun t => (parse_calver_tag t).isSome)).isEmpty
   then []
   else [['g', 'i', 't', '_', 't', 'a', 'g']]) ++
  (match fileContent with
   | some _ => [['f', 'i', 'l', 'e']]
   | none => [])

/-- Exit code of the `check` subcommand: in JSON mode it prints the
(possibly empty) versions object and returns `0`; in text mode it returns
`1` exactly when no source yielded a version. -/
def version_check_exit (json : Bool) (pkg : Option (List Char))
    (git_tags : List (List Char)) (fileContent : Option (List Char)) : Nat :=
  let versions := version_check_sources pkg git_tags fileContent
  if json then 0
  else if versions.isEmpty then 1 else 0

-- Spec-side definitions (written from the specification's words, to be
-- compared with the source-derived definitions above).

/-- The specification's grammar for a tag: an optional leading `v`, then a
4-digit year, `.`, 2-digit month, `.`, 2-digit day, `.`, one-or-more-digit
micro, and nothing else. -/
def specGrammar (s : List Char) : Option Calver :=
  matchCalver (strip_v s)

/-- The specification's semantic validity test on a structurally matched
value. -/
def specRangeOk (v : Calver) : Bool :=
  decide (1 ≤ v.2.1) && decide (v.2.1 ≤ 12) && decide (1 ≤ v.2.2.1) &&
    decide (v.2.2.1 ≤ 31) && decide (1 ≤ v.2.2.2)

/-- The partition of the parsed candidate tags whose date equals the
current date (spec, Version Calculator algorithm steps 1–2). -/
def sameDatePartition (cd : Nat × Nat × Nat) (tags : List (List Char)) :
    List Calver :=
  (tags.filterMap parse_calver_tag).filter
    (fun v => decide ((v.1, v.2.1, v.2.2.1) = cd))

/-- The next micro as described by the spec (step 3): `1` when the
partition is empty, otherwise one more than the maximum micro over it. -/
def nextMicroSpec (cd : Nat × Nat × Nat) (tags : List (List Char)) : Nat :=
  let part := sameDatePartition cd tags
  if part = [] then 1
  else 1 + (part.map (fun v => v.2.2.2)).foldr Nat.max 0

/-- Whether a candidate tag parses to a value dated exactly `cd`. -/
def tagHasDate (cd : Nat × Nat × Nat) (t : List Char) : Bool :=
  match parse_calver_tag t with
  | some v => decide ((v.1, v.2.1, v.2.2.1) = cd)
  | none => false

/-- The spec's lexicographic strict order on `(year, month, day, micro)`. -/
def calverLex (a b : Calver) : Prop :=
  a.1 < b.1 ∨ (a.1 = b.1 ∧ (a.2.1 < b.2.1 ∨ (a.2.1 = b.2.1 ∧
    (a.2.2.1 < b.2.2.1 ∨ (a.2.2.1 = b.2.2.1 ∧ a.2.2.2 < b.2.2.2)))))

-- Character-class facts.

lemma isDigit_digitChar (d : Nat) : isDigitChar (digitChar d) = true := by
  rcases d with _ | _ | _ | _ | _ | _ | _ | _ | _ | d <;> rfl

lemma charToDigit_digitChar (d : Nat) (h : d < 10) :
    charToDigit (digitChar d) = d := by
  interval_cases d <;> rfl

lemma not_space_of_digit {c : Char} (h : isDigitChar c = true) :
    isSpaceChar c = false := by
  rcases hc : isSpaceChar c with _ | _
  · rfl
  exfalso
  simp only [isSpaceChar, Bool.or_eq_true, decide_eq_true_eq] at hc
  rcases hc with ((((rfl | rfl) | rfl) | rfl) | rfl) | rfl <;> revert h <;> decide

lemma digit_ne_v {c : Char} (h : isDigitChar c = true) : c ≠ 'v' := by
  rintro rfl; revert h; decide

-- Decimal rendering: characterization through `Nat.digits`.

lemma toDecimalAux_eq (fuel : Nat) : ∀ n acc, 1 ≤ n → n ≤ fuel →
    toDecimalAux fuel n acc = ((Nat.digits 10 n).reverse.map digitChar) ++ acc := by
  induction fuel with
  | zero => intro n acc h1 h2; omega
  | succ fuel ih =>
    intro n acc h1 h2
    rw [toDecimalAux]
    by_cases h10 : n < 10
    · rw [if_pos h10, Nat.digits_of_lt 10 n (by omega) h10]
      simp [Nat.mod_eq_of_lt h10]
    · rw [if_neg h10, ih (n / 10) _ (by omega) (by omega),
        Nat.digits_def' (by norm_num : (1 : Nat) < 10) (by omega : 0 < n)]
      simp

lemma natStr_eq {n : Nat} (h : 1 ≤ n) :
    natStr n = (Nat.digits 10 n).reverse.map digitChar := by
  rw [natStr, toDecimalAux_eq _ _ _ h (by omega)]
  simp

lemma natStr_all_digit (n : Nat) : ∀ c ∈ natStr n, isDigitChar c = true := by
  rcases Nat.eq_zero_or_pos n with rfl | h
  · intro c hc
    have h0 : natStr 0 = ['0'] := rfl
    rw [h0, List.mem_singleton] at hc
    subst hc; rfl
  · rw [natStr_eq h]
    intro c hc
    simp only [List.mem_map] at hc
    obtain ⟨d, _, rfl⟩ := hc
    exact isDigit_digitChar d

lemma natStr_ne_nil (n : Nat) : natStr n ≠ [] := by
  rcases Nat.eq_zero_or_pos n with rfl | h
  · decide
  · rw [natStr_eq h]
    simp [Nat.digits_ne_nil_iff_ne_zero, Nat.pos_iff_ne_zero.mp h]

lemma natStr_length_le {k n : Nat} (hk : 1 ≤ k) (h : n < 10 ^ k) :
    (natStr n).length ≤ k := by
  rcases Nat.eq_zero_or_pos n with rfl | hn
  · simpa [natStr, toDecimalAux] using hk
  · rw [natStr_eq hn]
    simp only [List.length_map, List.length_reverse]
    rw [Nat.digits_len 10 n (by norm_num) (by omega)]
    have := Nat.log_lt_of_lt_pow (by omega : n ≠ 0) h
    omega

lemma foldl_digits_eq (l : List Nat) (hl : ∀ x ∈ l, x < 10) :
    ∀ a, List.foldl (fun acc c => 10 * acc + charToDigit c) a
      (l.reverse.map digitChar) = a * 10 ^ l.length + Nat.ofDigits 10 l := by
  induction l with
  | nil => intro a; simp [Nat.ofDigits_nil]
  | cons d t ih =>
    intro a
    have hd : d < 10 := hl d (by simp)
    have ht : ∀ x ∈ t, x < 10 := fun x hx => hl x (by simp [hx])
    simp only [List.reverse_cons, List.map_append, List.foldl_append,
      List.map_cons, List.map_nil]
    rw [ih ht a]
    simp only [List.foldl_cons, List.foldl_nil, charToDigit_digitChar d hd,
      Nat.ofDigits_cons, Nat.cast_id, List.length_cons]
    ring

lemma digitsToNat_natStr (n : Nat) : digitsToNat (natStr n) = n := by
  rcases Nat.eq_zero_or_pos n with rfl | h
  · decide
  · rw [natStr_eq h, digitsToNat,
      foldl_digits_eq _ (fun x hx => Nat.digits_lt_base (by norm_num) hx) 0,
      Nat.ofDigits_digits]
    simp

-- Zero padding.

lemma digitsToNat_padZero (w : Nat) (ds : List Char) :
    digitsToNat (padZero w ds) = digitsToNat ds := by
  unfold padZero digitsToNat
  generalize w - ds.length = k
  induction k with
  | zero => simp
  | succ k ih =>
    have h0 : charToDigit '0' = 0 := rfl
    simp only [List.replicate_succ, List.cons_append, List.foldl_cons, h0,
      Nat.mul_zero, Nat.add_zero]
    exact ih

lemma padZero_length {w : Nat} {ds : List Char} (h : ds.length ≤ w) :
    (padZero w ds).length = w := by
  simp [padZero]
  omega

lemma padZero_all_digit {ds : List Char} (h : ∀ c ∈ ds, isDigitChar c = true)
    (w : Nat) : ∀ c ∈ padZero w ds, isDigitChar c = true := by
  intro c hc
  rcases List.mem_append.mp hc with hc | hc
  · rw [List.eq_of_mem_replicate hc]; rfl
  · exact h c hc

-- Whitespace stripping.

lemma pystrip_eq_self {l : List Char} (h : ∀ c ∈ l, isSpaceChar c = false) :
    pystrip l = l := by
  unfold pystrip
  have h1 : l.dropWhile isSpaceChar = l := by
    rw [List.dropWhile_eq_self_iff]
    intro hl
    simp [h _ (List.getElem_mem hl)]
  rw [h1, List.rdropWhile_eq_self_iff]
  intro hl
  simp [h _ (List.getLast_mem hl)]

lemma dropWhile_of_prefix_dropWhile {p : Char → Bool} {A B : List Char}
    (hpre : B <+: A) (hA : A.dropWhile p = A) : B.dropWhile p = B := by
  rcases B with _ | ⟨b, B⟩
  · rfl
  obtain ⟨t, ht⟩ := hpre
  have hAb : A = b :: (B ++ t) := by rw [← ht]; rfl
  rw [hAb, List.dropWhile_cons] at hA
  by_cases hpb : p b = true
  · rw [if_pos hpb] at hA
    have := (List.dropWhile_sublist (l := B ++ t) p).length_le
    rw [hA] at this
    simp at this
  · rw [List.dropWhile_cons, if_neg hpb]

lemma pystrip_idem (l : List Char) : pystrip (pystrip l) = pystrip l := by
  unfold pystrip
  have h1 : (((l.dropWhile isSpaceChar).rdropWhile isSpaceChar).dropWhile
      isSpaceChar) = (l.dropWhile isSpaceChar).rdropWhile isSpaceChar :=
    dropWhile_of_prefix_dropWhile (List.rdropWhile_prefix _ _)
      (List.dropWhile_idempotent _ _)
  rw [h1, List.rdropWhile_idempotent]

-- Formatted fields: length, digit-only content, and numeric value.

lemma fmt4_spec {y : Nat} (h : y ≤ 9999) :
    (fmt4 y).length = 4 ∧ (∀ c ∈ fmt4 y, isDigitChar c = true) ∧
      digitsToNat (fmt4 y) = y :=
  ⟨padZero_length (natStr_length_le (by norm_num) (by omega)),
    padZero_all_digit (natStr_all_digit y) 4,
    by rw [fmt4, digitsToNat_padZero, digitsToNat_natStr]⟩

lemma fmt2_spec {m : Nat} (h : m ≤ 99) :
    (fmt2 m).length = 2 ∧ (∀ c ∈ fmt2 m, isDigitChar c = true) ∧
      digitsToNat (fmt2 m) = m :=
  ⟨padZero_length (natStr_length_le (by norm_num) (by omega)),
    padZero_all_digit (natStr_all_digit m) 2,
    by rw [fmt2, digitsToNat_padZero, digitsToNat_natStr]⟩

lemma exists_four {l : List Char} (h : l.length = 4) :
    ∃ a b c d, l = [a, b, c, d] := by
  rcases l with _ | ⟨a, l⟩
  · simp only [List.length_nil] at h
    omega
  rcases l with _ | ⟨b, l⟩
  · simp only [List.length_cons, List.length_nil] at h
    omega
  rcases l with _ | ⟨c, l⟩
  · simp only [List.length_cons, List.length_nil] at h
    omega
  rcases l with _ | ⟨d, l⟩
  · simp only [List.length_cons, List.length_nil] at h
    omega
  rcases l with _ | ⟨e, l⟩
  · exact ⟨a, b, c, d, rfl⟩
  · simp only [List.length_cons] at h
    omega

lemma exists_two {l : List Char} (h : l.length = 2) :
    ∃ a b, l = [a, b] := by
  rcases l with _ | ⟨a, l⟩
  · simp only [List.length_nil] at h
    omega
  rcases l with _ | ⟨b, l⟩
  · simp only [List.length_cons, List.length_nil] at h
    omega
  rcases l with _ | ⟨c, l⟩
  · exact ⟨a, b, rfl⟩
  · simp only [List.length_cons] at h
    omega

-- Structure of the canonical formatted string.

lemma matchCalver_cons (y1 y2 y3 y4 c1 m1 m2 c2 d1 d2 c3 : Char)
    (rest : List Char) :
    matchCalver (y1 :: y2 :: y3 :: y4 :: c1 :: m1 :: m2 :: c2 :: d1 :: d2 ::
        c3 :: rest) =
      if isDigitChar y1 && isDigitChar y2 && isDigitChar y3 && isDigitChar y4 &&
          decide (c1 = '.') && isDigitChar m1 && isDigitChar m2 &&
          decide (c2 = '.') && isDigitChar d1 && isDigitChar d2 &&
          decide (c3 = '.') && !rest.isEmpty && rest.all isDigitChar then
        some (digitsToNat [y1, y2, y3, y4], digitsToNat [m1, m2],
          digitsToNat [d1, d2], digitsToNat rest)
      else none := rfl

lemma pyformat_chars (v : Calver) :
    ∀ c ∈ pyformat v, isDigitChar c = true ∨ c = '.' := by
  intro c hc
  simp only [pyformat, datePart, List.append_assoc, List.cons_append,
    List.mem_append, List.mem_cons] at hc
  rcases hc with hc | rfl | hc | rfl | hc | rfl | hc
  · exact Or.inl (padZero_all_digit (natStr_all_digit _) 4 c hc)
  · exact Or.inr rfl
  · exact Or.inl (padZero_all_digit (natStr_all_digit _) 2 c hc)
  · exact Or.inr rfl
  · exact Or.inl (padZero_all_digit (natStr_all_digit _) 2 c hc)
  · exact Or.inr rfl
  · exact Or.inl (natStr_all_digit _ c hc)

lemma pyformat_no_space (v : Calver) :
    ∀ c ∈ pyformat v, isSpaceChar c = false := by
  intro c hc
  rcases pyformat_chars v c hc with h | rfl
  · exact not_space_of_digit h
  · decide

lemma head_padZero {w : Nat} {ds : List Char} (hne : ds ≠ [])
    (hd : ∀ c ∈ ds, isDigitChar c = true) :
    ∃ a t, padZero w ds = a :: t ∧ isDigitChar a = true := by
  unfold padZero
  rcases hk : w - ds.length with _ | k
  · rcases ds with _ | ⟨a, t⟩
    · exact absurd rfl hne
    · exact ⟨a, t, by simp, hd a (by simp)⟩
  · exact ⟨'0', List.replicate k '0' ++ ds, by simp [List.replicate_succ], rfl⟩

lemma pyformat_head (v : Calver) :
    ∃ a t, pyformat v = a :: t ∧ isDigitChar a = true := by
  obtain ⟨a, t, h, ha⟩ :=
    head_padZero (w := 4) (natStr_ne_nil v.1) (natStr_all_digit v.1)
  have hshape : pyformat v = a :: (t ++ '.' :: fmt2 v.2.1 ++ '.' ::
      fmt2 v.2.2.1 ++ '.' :: natStr v.2.2.2) := by
    simp only [pyformat, datePart, fmt4, h, List.cons_append,
      List.append_assoc]
  exact ⟨a, _, hshape, ha⟩

lemma strip_v_cons_ne {a : Char} {t : List Char} (h : a ≠ 'v') :
    strip_v (a :: t) = a :: t := by
  simp [strip_v, h]

lemma matchCalver_pyformat {y m d mi : Nat} (hy : y ≤ 9999) (hm : m ≤ 99)
    (hd : d ≤ 99) : matchCalver (pyformat (y, m, d, mi)) = some (y, m, d, mi) := by
  obtain ⟨a, b, c, dd, h4⟩ := exists_four (fmt4_spec hy).1
  obtain ⟨e, f, h2m⟩ := exists_two (fmt2_spec hm).1
  obtain ⟨g, hgh, h2d⟩ := exists_two (fmt2_spec hd).1
  have hda : ∀ x ∈ [a, b, c, dd], isDigitChar x = true := by
    rw [← h4]; exact (fmt4_spec hy).2.1
  have hdm : ∀ x ∈ [e, f], isDigitChar x = true := by
    rw [← h2m]; exact (fmt2_spec hm).2.1
  have hdd : ∀ x ∈ [g, hgh], isDigitChar x = true := by
    rw [← h2d]; exact (fmt2_spec hd).2.1
  have hshape : pyformat (y, m, d, mi) = a :: b :: c :: dd :: '.' :: e :: f ::
      '.' :: g :: hgh :: '.' :: natStr mi := by
    simp only [pyformat, datePart]
    rw [show fmt4 y = [a, b, c, dd] from h4, show fmt2 m = [e, f] from h2m,
      show fmt2 d = [g, hgh] from h2d]
    simp
  rw [hshape, matchCalver_cons]
  rw [if_pos]
  · rw [show digitsToNat [a, b, c, dd] = y from h4 ▸ (fmt4_spec hy).2.2,
      show digitsToNat [e, f] = m from h2m ▸ (fmt2_spec hm).2.2,
      show digitsToNat [g, hgh] = d from h2d ▸ (fmt2_spec hd).2.2,
      digitsToNat_natStr]
  · simp [hda a (by simp), hda b (by simp), hda c (by simp), hda dd (by simp),
      hdm e (by simp), hdm f (by simp), hdd g (by simp), hdd hgh (by simp),
      List.all_eq_true.mpr (natStr_all_digit mi), List.isEmpty_iff,
      natStr_ne_nil mi]

lemma parse_pyformat {y m d mi : Nat} (hy : y ≤ 9999) (hm : m ≤ 99)
    (hd : d ≤ 99) :
    parse_calver_tag (pyformat (y, m, d, mi)) = validateRanges (y, m, d, mi) := by
  obtain ⟨a, t, hshape, hdig⟩ := pyformat_head (y, m, d, mi)
  unfold parse_calver_tag
  rw [pystrip_eq_self (pyformat_no_space _), hshape,
    strip_v_cons_ne (digit_ne_v hdig), ← hshape, matchCalver_pyformat hy hm hd]

-- Inversion: a string accepted by the structural matcher is made of digits
-- and dots and starts with a digit.

lemma matchCalver_shape {s : List Char} {v : Calver}
    (h : matchCalver s = some v) :
    (∀ c ∈ s, isDigitChar c = true ∨ c = '.') ∧
      ∃ a t, s = a :: t ∧ isDigitChar a = true := by
  rcases s with _ | ⟨y1, s⟩
  · exact Option.noConfusion h
  rcases s with _ | ⟨y2, s⟩
  · exact Option.noConfusion h
  rcases s with _ | ⟨y3, s⟩
  · exact Option.noConfusion h
  rcases s with _ | ⟨y4, s⟩
  · exact Option.noConfusion h
  rcases s with _ | ⟨c1, s⟩
  · exact Option.noConfusion h
  rcases s with _ | ⟨m1, s⟩
  · exact Option.noConfusion h
  rcases s with _ | ⟨m2, s⟩
  · exact Option.noConfusion h
  rcases s with _ | ⟨c2, s⟩
  · exact Option.noConfusion h
  rcases s with _ | ⟨d1, s⟩
  · exact Option.noConfusion h
  rcases s with _ | ⟨d2, s⟩
  · exact Option.noConfusion h
  rcases s with _ | ⟨c3, rest⟩
  · exact Option.noConfusion h
  rw [matchCalver_cons] at h
  rcases hg : (isDigitChar y1 && isDigitChar y2 && isDigitChar y3 &&
      isDigitChar y4 && decide (c1 = '.') && isDigitChar m1 &&
      isDigitChar m2 && decide (c2 = '.') && isDigitChar d1 &&
      isDigitChar d2 && decide (c3 = '.') && !rest.isEmpty &&
      rest.all isDigitChar) with _ | _
  · rw [if_neg (by simp [hg])] at h
    exact Option.noConfusion h
  simp only [Bool.and_eq_true, decide_eq_true_eq, List.all_eq_true] at hg
  obtain ⟨⟨⟨⟨⟨⟨⟨⟨⟨⟨⟨⟨h1, h2⟩, h3⟩, h4⟩, hd1⟩, h5⟩, h6⟩, hd2⟩, h7⟩, h8⟩,
    hd3⟩, hne⟩, hall⟩ := hg
  constructor
  · intro c hc
    simp only [List.mem_cons] at hc
    rcases hc with rfl | rfl | rfl | rfl | rfl | rfl | rfl | rfl | rfl |
      rfl | rfl | hc
    · exact Or.inl h1
    · exact Or.inl h2
    · exact Or.inl h3
    · exact Or.inl h4
    · exact Or.inr hd1
    · exact Or.inl h5
    · exact Or.inl h6
    · exact Or.inr hd2
    · exact Or.inl h7
    · exact Or.inl h8
    · exact Or.inr hd3
    · exact Or.inl (hall c hc)
  · exact ⟨y1, _, rfl, h1⟩

lemma parse_v_cons {s : List Char} {v : Calver} (h : matchCalver s = some v) :
    parse_calver_tag ('v' :: s) = parse_calver_tag s := by
  obtain ⟨hchars, a, t, rfl, ha⟩ := matchCalver_shape h
  have hnospace : ∀ c ∈ a :: t, isSpaceChar c = false := by
    intro c hc
    rcases hchars c hc with hd | rfl
    · exact not_space_of_digit hd
    · decide
  have hnospaceV : ∀ c ∈ 'v' :: a :: t, isSpaceChar c = false := by
    intro c hc
    rcases List.mem_cons.mp hc with rfl | hc
    · decide
    · exact hnospace c hc
  unfold parse_calver_tag
  rw [pystrip_eq_self hnospaceV, pystrip_eq_self hnospace,
    show strip_v ('v' :: a :: t) = a :: t from by simp [strip_v],
    strip_v_cons_ne (digit_ne_v ha)]

lemma parse_v_pyformat (x : Calver) :
    parse_calver_tag ('v' :: pyformat x) = parse_calver_tag (pyformat x) := by
  obtain ⟨a, t, hshape, ha⟩ := pyformat_head x
  have hnospace := pyformat_no_space x
  have hnospaceV : ∀ c ∈ 'v' :: pyformat x, isSpaceChar c = false := by
    intro c hc
    rcases List.mem_cons.mp hc with rfl | hc
    · decide
    · exact hnospace c hc
  have h1 : strip_v ('v' :: pyformat x) = pyformat x := by
    rw [hshape]; simp [strip_v]
  have h2 : strip_v (pyformat x) = pyformat x := by
    rw [hshape]; exact strip_v_cons_ne (digit_ne_v ha)
  unfold parse_calver_tag
  rw [pystrip_eq_self hnospaceV, pystrip_eq_self hnospace, h1, h2]

-- Maximum of a non-empty list.

lemma foldl_max_eq (xs : List Nat) :
    ∀ x, xs.foldl Nat.max x = Nat.max x (xs.foldr Nat.max 0) := by
  induction xs with
  | nil => intro x; simp
  | cons y ys ih =>
    intro x
    simp only [List.foldl_cons, List.foldr_cons, ih (Nat.max x y)]
    exact Nat.max_assoc x y (List.foldr Nat.max 0 ys)

lemma listMax_succ {l : List Nat} (h : l ≠ []) :
    listMax l + 1 = 1 + l.foldr Nat.max 0 := by
  rcases l with _ | ⟨x, xs⟩
  · exact absurd rfl h
  · rw [listMax, foldl_max_eq]
    simp only [List.foldr_cons]
    omega

-- The calculator agrees with the spec-side description.

lemma nextMicro_eq (P : List Calver) :
    (if P.isEmpty then 1 else listMax (P.map (fun v => v.2.2.2)) + 1)
      = if P = [] then 1 else 1 + (P.map (fun v => v.2.2.2)).foldr Nat.max 0 := by
  rcases P with _ | ⟨p, P⟩
  · rfl
  · rw [if_neg (by simp), if_neg (by simp), listMax_succ (by simp)]

lemma calcEqSpec (cd : Nat × Nat × Nat) (tags : List (List Char)) :
    calculate_next_version cd tags
      = pyformat (cd.1, cd.2.1, cd.2.2, nextMicroSpec cd tags) := by
  simp only [calculate_next_version, nextMicroSpec, sameDatePartition,
    pyformat]
  rw [nextMicro_eq]

lemma nextMicroSpec_pos (cd : Nat × Nat × Nat) (tags : List (List Char)) :
    1 ≤ nextMicroSpec cd tags := by
  simp only [nextMicroSpec]
  split <;> omega

lemma nextMicroSpec_congr {cd : Nat × Nat × Nat}
    {tags1 tags2 : List (List Char)}
    (h : sameDatePartition cd tags1 = sameDatePartition cd tags2) :
    nextMicroSpec cd tags1 = nextMicroSpec cd tags2 := by
  unfold nextMicroSpec
  rw [h]

lemma calc_congr {cd : Nat × Nat × Nat} {tags1 tags2 : List (List Char)}
    (h : sameDatePartition cd tags1 = sameDatePartition cd tags2) :
    calculate_next_version cd tags1 = calculate_next_version cd tags2 := by
  rw [calcEqSpec, calcEqSpec, nextMicroSpec_congr h]

lemma partition_filter (cd : Nat × Nat × Nat) (tags : List (List Char)) :
    sameDatePartition cd (tags.filter (tagHasDate cd))
      = sameDatePartition cd tags := by
  induction tags with
  | nil => rfl
  | cons t ts ih =>
    rcases hp : parse_calver_tag t with _ | v
    · have hth : tagHasDate cd t = false := by simp [tagHasDate, hp]
      simpa [sameDatePartition, List.filter_cons, List.filterMap_cons, hth,
        hp] using ih
    · rcases hdate : (decide ((v.1, v.2.1, v.2.2.1) = cd)) with _ | _
      · have hth : tagHasDate cd t = false := by simp [tagHasDate, hp, hdate]
        simpa [sameDatePartition, List.filter_cons, List.filterMap_cons, hth,
          hp, hdate] using ih
      · have hth : tagHasDate cd t = true := by simp [tagHasDate, hp, hdate]
        simpa [sameDatePartition, List.filter_cons, List.filterMap_cons, hth,
          hp, hdate] using ih

lemma partition_insert_invalid (cd : Nat × Nat × Nat)
    (l1 l2 : List (List Char)) {s : List Char}
    (hs : parse_calver_tag s = none) :
    sameDatePartition cd (l1 ++ s :: l2) = sameDatePartition cd (l1 ++ l2) := by
  unfold sameDatePartition
  rw [List.filterMap_append, List.filterMap_append,
    List.filterMap_cons_none hs]

-- Lexicographic comparison.

lemma pyTupleLt_iff (a b : Calver) : pyTupleLt a b = true ↔ calverLex a b := by
  obtain ⟨a1, a2, a3, a4⟩ := a
  obtain ⟨b1, b2, b3, b4⟩ := b
  simp [pyTupleLt, calverLex]

lemma calverLex_irrefl (a : Calver) : ¬calverLex a a := by
  obtain ⟨a1, a2, a3, a4⟩ := a
  simp [calverLex]

lemma calverLex_asymm {a b : Calver} (h : calverLex a b) : ¬calverLex b a := by
  obtain ⟨a1, a2, a3, a4⟩ := a
  obtain ⟨b1, b2, b3, b4⟩ := b
  simp only [calverLex] at h ⊢
  omega

lemma calverLex_trichot (a b : Calver) :
    calverLex a b ∨ a = b ∨ calverLex b a := by
  obtain ⟨a1, a2, a3, a4⟩ := a
  obtain ⟨b1, b2, b3, b4⟩ := b
  simp only [calverLex, Prod.mk.injEq]
  omega

lemma compareResult_eq_lt (a b : Calver) :
    compareResult a b = ['<'] ↔ calverLex a b := by
  rw [← pyTupleLt_iff]
  unfold compareResult
  rcases hab : pyTupleLt a b with _ | _
  · rw [if_neg (by simp [hab])]
    constructor
    · intro h
      exfalso
      rcases hba : pyTupleLt b a with _ | _
      · rw [if_neg (by simp [hba])] at h
        exact absurd h (by decide)
      · rw [if_pos hba] at h
        exact absurd h (by decide)
    · intro h
      exact absurd h (by simp)
  · rw [if_pos rfl]
    simp

lemma compareResult_eq_gt (a b : Calver) :
    compareResult a b = ['>'] ↔ calverLex b a := by
  rw [← pyTupleLt_iff]
  unfold compareResult
  rcases hab : pyTupleLt a b with _ | _
  · rw [if_neg (by simp [hab])]
    rcases hba : pyTupleLt b a with _ | _
    · rw [if_neg (by simp [hba])]
      constructor
      · intro h
        exact absurd h (by decide)
      · intro h
        exact absurd h (by simp)
    · rw [if_pos rfl]
      simp
  · rw [if_pos rfl]
    constructor
    · intro h
      exact absurd h (by decide)
    · intro h
      exact absurd ((pyTupleLt_iff b a).mp h)
        (calverLex_asymm ((pyTupleLt_iff a b).mp hab))

lemma compareResult_eq_eq (a b : Calver) :
    compareResult a b = ['=', '='] ↔ a = b := by
  unfold compareResult
  rcases hab : pyTupleLt a b with _ | _
  · rw [if_neg (by simp [hab])]
    rcases hba : pyTupleLt b a with _ | _
    · rw [if_neg (by simp [hba])]
      constructor
      · intro _
        rcases calverLex_trichot a b with h | h | h
        · exact absurd ((pyTupleLt_iff a b).mpr h) (by simp [hab])
        · exact h
        · exact absurd ((pyTupleLt_iff b a).mpr h) (by simp [hba])
      · intro _
        rfl
    · rw [if_pos rfl]
      constructor
      · intro h
        exact absurd h (by decide)
      · rintro rfl
        exact absurd ((pyTupleLt_iff a a).mp hba) (calverLex_irrefl a)
  · rw [if_pos rfl]
    constructor
    · intro h
      exact absurd h (by decide)
    · rintro rfl
      exact absurd ((pyTupleLt_iff a a).mp hab) (calverLex_irrefl a)

lemma calverLex_trans {a b c : Calver} (h1 : calverLex a b)
    (h2 : calverLex b c) : calverLex a c := by
  obtain ⟨a1, a2, a3, a4⟩ := a
  obtain ⟨b1, b2, b3, b4⟩ := b
  obtain ⟨c1, c2, c3, c4⟩ := c
  simp only [calverLex] at h1 h2 ⊢
  omega

lemma compareResult_total (a b : Calver) :
    compareResult a b = ['<'] ∨ compareResult a b = ['=', '='] ∨
      compareResult a b = ['>'] := by
  unfold compareResult
  rcases pyTupleLt a b with _ | _ <;> rcases pyTupleLt b a with _ | _ <;> simp

-- Range validation agrees with the spec's description.

lemma validateRanges_eq_spec (v : Calver) :
    validateRanges v = if specRangeOk v then some v else none := by
  obtain ⟨y, m, d, mi⟩ := v
  simp only [validateRanges, specRangeOk, Bool.and_eq_true, decide_eq_true_eq]
  split_ifs <;> first | rfl | omega

lemma parse_eq_specGrammar (s : List Char) :
    parse_calver_tag s
      = match specGrammar (pystrip s) with
        | none => none
        | some v => if specRangeOk v then some v else none := by
  unfold parse_calver_tag specGrammar
  rcases h : matchCalver (strip_v (pystrip s)) with _ | v
  · rfl
  · exact validateRanges_eq_spec v

-- Claim theorems.

/-- C1: for every current date `(y, m, d)` and candidate tag collection, the
Version Calculator parses each candidate, keeps the parsed values dated
exactly `(y, m, d)`, and returns the canonical `{y:04d}.{m:02d}.{d:02d}.{micro}`
string (no `v` prefix) where micro is `1` plus the maximum micro of that
partition when it is non-empty and `1` otherwise. -/
theorem claim_C1 (cd : Nat × Nat × Nat) (tags : List (List Char)) :
    calculate_next_version cd tags
      = pyformat (cd.1, cd.2.1, cd.2.2, nextMicroSpec cd tags) :=
  calcEqSpec cd tags

/-- C2: the Version Calculator is total; its result carries exactly the
supplied current date and a micro of at least `1`, and candidates that do not
parse to the current date never influence the result (no cross-date
carry-over). -/
theorem claim_C2 (cd : Nat × Nat × Nat) (tags : List (List Char)) :
    (∃ k, 1 ≤ k ∧ calculate_next_version cd tags
        = pyformat (cd.1, cd.2.1, cd.2.2, k)) ∧
      calculate_next_version cd (tags.filter (tagHasDate cd))
        = calculate_next_version cd tags :=
  ⟨⟨nextMicroSpec cd tags, nextMicroSpec_pos cd tags, calcEqSpec cd tags⟩,
    calc_congr (partition_filter cd tags)⟩

/-- C3 (counterexample to the claim as stated): the input
`"2024.01.18.1 "` has trailing content and therefore deviates from the
grammar, yet parsing yields a value rather than absence, because the parser
strips surrounding whitespace first. -/
theorem claim_C3_counterexample :
    specGrammar ['2','0','2','4','.','0','1','.','1','8','.','1',' '] = none ∧
      parse_calver_tag ['2','0','2','4','.','0','1','.','1','8','.','1',' ']
        = some (2024, 1, 18, 1) :=
  ⟨by decide, by decide⟩

/-- C3 (amended): parsing yields a value exactly when the
whitespace-stripped input matches the grammar (optional `v`, 4-digit year,
2-digit month, 2-digit day, 1-or-more-digit micro) with month in `[1,12]`,
day in `[1,31]` and micro at least `1`; every other input yields absence,
and parsing is a total function, never a distinguishable error. -/
theorem claim_C3 (s : List Char) :
    parse_calver_tag s
      = match specGrammar (pystrip s) with
        | none => none
        | some v => if specRangeOk v then some v else none :=
  parse_eq_specGrammar s

/-- C4 (counterexample to the claim as stated): for the 5-digit year
`10000` with month, day and micro all `1` — a tuple the claim covers, since
it lets the year be any integer — the canonical format does not re-parse at
all, let alone to the original tuple. -/
theorem claim_C4_counterexample :
    parse_calver_tag (pyformat (10000, 1, 1, 1)) = none ∧
      parse_calver_tag (pyformat (10000, 1, 1, 1)) ≠ some (10000, 1, 1, 1) :=
  ⟨by decide, by decide⟩

/-- C4 (amended): for every tuple with year at most `9999` (so that the
zero-padded year stays 4 digits), month in `[1,12]`, day in `[1,31]` and
micro at least `1`, parsing the canonical formatted string returns exactly
the original tuple — parse is a left inverse of format on these values. -/
theorem claim_C4 (y m d mi : Nat) (hy : y ≤ 9999) (hm1 : 1 ≤ m)
    (hm2 : m ≤ 12) (hd1 : 1 ≤ d) (hd2 : d ≤ 31) (hmi : 1 ≤ mi) :
    parse_calver_tag (pyformat (y, m, d, mi)) = some (y, m, d, mi) := by
  rw [parse_pyformat hy (by omega) (by omega)]
  unfold validateRanges
  dsimp only
  rw [if_neg (by omega), if_neg (by omega), if_neg (by omega)]

/-- C4 witness: the amended round-trip at the concrete value
`(2024, 1, 18, 42)`. -/
theorem claim_C4_witness :
    2024 ≤ 9999 ∧ 1 ≤ 1 ∧ 1 ≤ 12 ∧ 1 ≤ 18 ∧ 18 ≤ 31 ∧ 1 ≤ 42 ∧
      parse_calver_tag (pyformat (2024, 1, 18, 42)) = some (2024, 1, 18, 42) :=
  ⟨by decide, by decide, by decide, by decide, by decide, by decide,
    claim_C4 2024 1 18 42 (by decide) (by decide) (by decide) (by decide)
      (by decide) (by decide)⟩

/-- C5: version comparison is a strict total order consistent with
lexicographic order on `(year, month, day, micro)`: every comparison yields
exactly one of `<`, `==`, `>`; `==` holds exactly on equal values; `<` holds
exactly on the lexicographic order, which is antisymmetric and transitive;
and `(2024,1,18,1) < (2024,1,18,2) < (2024,1,19,1)`. -/
theorem claim_C5 :
    (∀ a b : Calver, compareResult a b = ['<'] ∨
        compareResult a b = ['=', '='] ∨ compareResult a b = ['>']) ∧
      (∀ a b : Calver, compareResult a b = ['=', '='] ↔ a = b) ∧
      (∀ a b : Calver, compareResult a b = ['<'] ↔ calverLex a b) ∧
      (∀ a b : Calver, compareResult a b = ['<'] ↔ compareResult b a = ['>']) ∧
      (∀ a b c : Calver, calverLex a b → calverLex b c → calverLex a c) ∧
      compareResult (2024, 1, 18, 1) (2024, 1, 18, 2) = ['<'] ∧
      compareResult (2024, 1, 18, 2) (2024, 1, 19, 1) = ['<'] :=
  ⟨compareResult_total, compareResult_eq_eq, compareResult_eq_lt,
    fun a b => (compareResult_eq_lt a b).trans (compareResult_eq_gt b a).symm,
    fun _ _ _ h1 h2 => calverLex_trans h1 h2, by decide, by decide⟩

/-- C5 witness: the transitivity component of the order at the spec's
example values. -/
theorem claim_C5_witness :
    calverLex (2024, 1, 18, 1) (2024, 1, 18, 2) ∧
      calverLex (2024, 1, 18, 2) (2024, 1, 19, 1) ∧
      calverLex (2024, 1, 18, 1) (2024, 1, 19, 1) :=
  ⟨by simp [calverLex], by simp [calverLex],
    claim_C5.2.2.2.2.1 (2024, 1, 18, 1) (2024, 1, 18, 2) (2024, 1, 19, 1)
      (by simp [calverLex]) (by simp [calverLex])⟩

/-- C6 (counterexample to the claim as stated): with no package version, no
git tags and no VERSION file, no source yields a version, yet in JSON output
mode the `check` subcommand exits with status `0`, not `1`. -/
theorem claim_C6_counterexample :
    version_check_sources none [] none = [] ∧
      version_check_exit true none [] none = 0 :=
  ⟨by decide, by decide⟩

/-- C6 (amended): the `check` subcommand exits with status `0` or `1`; it
exits with `1` exactly when it is in text output mode and no version source
(package metadata, parsed git tag, VERSION file) yields a version; in JSON
mode it always exits `0`, printing a possibly empty versions object. -/
theorem claim_C6 (json : Bool) (pkg : Option (List Char))
    (git_tags : List (List Char)) (fileContent : Option (List Char)) :
    (version_check_exit json pkg git_tags fileContent = 0 ∨
        version_check_exit json pkg git_tags fileContent = 1) ∧
      (version_check_exit json pkg git_tags fileContent = 1 ↔
        (json = false ∧ version_check_sources pkg git_tags fileContent = [])) := by
  rcases json with _ | _
  · rcases hsrc : (version_check_sources pkg git_tags fileContent).isEmpty
      with _ | _
    · have hs : version_check_sources pkg git_tags fileContent ≠ [] := by
        intro he
        rw [he] at hsrc
        exact absurd hsrc (by decide)
      simp [version_check_exit, hsrc, hs]
    · have hs : version_check_sources pkg git_tags fileContent = [] :=
        List.isEmpty_iff.mp hsrc
      simp [version_check_exit, hsrc, hs]
  · simp [version_check_exit]

/-- C7: inserting a candidate string that fails CalVer parsing anywhere in
the tag collection never changes the computed next version. -/
theorem claim_C7 (cd : Nat × Nat × Nat) (l1 l2 : List (List Char))
    (s : List Char) (hs : parse_calver_tag s = none) :
    calculate_next_version cd (l1 ++ s :: l2)
      = calculate_next_version cd (l1 ++ l2) :=
  calc_congr (partition_insert_invalid cd l1 l2 hs)

/-- C7 witness: inserting `"invalid-tag"` before `"v2024.01.18.1"` leaves
the result unchanged. -/
theorem claim_C7_witness :
    parse_calver_tag ['i','n','v','a','l','i','d','-','t','a','g'] = none ∧
      calculate_next_version (2024, 1, 18)
          ([] ++ ['i','n','v','a','l','i','d','-','t','a','g'] ::
            [['v','2','0','2','4','.','0','1','.','1','8','.','1']])
        = calculate_next_version (2024, 1, 18)
            ([] ++ [['v','2','0','2','4','.','0','1','.','1','8','.','1']]) :=
  ⟨by decide, claim_C7 (2024, 1, 18) []
    [['v','2','0','2','4','.','0','1','.','1','8','.','1']]
    ['i','n','v','a','l','i','d','-','t','a','g'] (by decide)⟩

/-- C8: prepending a single `v` to a canonical formatted value — or to any
string matching the unprefixed grammar — never changes the parse result, so
the two spellings parse to equal values and the prefix is never part of the
exposed value. -/
theorem claim_C8 :
    (∀ x : Calver, parse_calver_tag ('v' :: pyformat x)
        = parse_calver_tag (pyformat x)) ∧
      ∀ (s : List Char) (v : Calver), matchCalver s = some v →
        parse_calver_tag ('v' :: s) = parse_calver_tag s :=
  ⟨parse_v_pyformat, fun _ _ h => parse_v_cons h⟩

/-- C8 witness: the prefixed and unprefixed spellings of `2024.01.18.1`
parse identically. -/
theorem claim_C8_witness :
    matchCalver ['2','0','2','4','.','0','1','.','1','8','.','1']
        = some (2024, 1, 18, 1) ∧
      parse_calver_tag ('v' :: ['2','0','2','4','.','0','1','.','1','8','.','1'])
        = parse_calver_tag ['2','0','2','4','.','0','1','.','1','8','.','1'] :=
  ⟨by decide, claim_C8.2 ['2','0','2','4','.','0','1','.','1','8','.','1']
    (2024, 1, 18, 1) (by decide)⟩

/-- C9: as long as the external standard-release-versioning parser accepts
every string that passes CalVer format validation (PEP 440 accepts any
dotted numeric release segment), the compliance check agrees extensionally
with format validation — it is a pass-through re-check, not an independent
rule set; without the external library it is format validation verbatim. -/
theorem claim_C9 (avail : Bool) (pep440Accepts : List Char → Bool)
    (version : List Char)
    (hacc : ∀ s, validate_version_format s = true → pep440Accepts s = true) :
    check_pep440_compliance avail pep440Accepts version
      = validate_version_format version := by
  unfold check_pep440_compliance
  rcases hv : validate_version_format version with _ | _
  · rw [if_pos rfl]
  · rw [if_neg (by simp)]
    rcases avail with _ | _
    · rfl
    · exact hacc version hv

/-- C9 witness: with the external parser modelled as accepting everything,
the compliance check of `2024.01.18.1` equals its format validation. -/
theorem claim_C9_witness :
    (∀ s, validate_version_format s = true →
        (fun _ => true : List Char → Bool) s = true) ∧
      check_pep440_compliance true (fun _ => true)
          ['2','0','2','4','.','0','1','.','1','8','.','1']
        = validate_version_format ['2','0','2','4','.','0','1','.','1','8','.','1'] :=
  ⟨fun _ _ => rfl, claim_C9 true (fun _ => true)
    ['2','0','2','4','.','0','1','.','1','8','.','1'] (fun _ _ => rfl)⟩

/-- C10: parsing is invariant under surrounding whitespace: parsing any
input equals parsing its whitespace-stripped form. -/
theorem claim_C10 (s : List Char) :
    parse_calver_tag (pystrip s) = parse_calver_tag s := by
  unfold parse_calver_tag
  rw [pystrip_idem]
